import Mathlib

/-!
Shallow embedding of the BounceRL Noita environment core
(`bounce_rl/environments/noita/noita_env.py` and the time-control writer),
with theorems checking the natural-language specification against it.

Numbers that Python represents as floats are modelled as rationals (`ℚ`);
Python `int(...)` truncation toward zero is modelled by `pyInt`.
-/

set_option autoImplicit false

namespace BounceRL

/-- Python `int(q)`: truncation toward zero. -/
def pyInt (q : ℚ) : ℤ :=
  if 0 ≤ q.num then ((q.num.toNat / q.den : ℕ) : ℤ)
  else -(((-q.num).toNat / q.den : ℕ) : ℤ)

/-- Python list indexing `s[i]`: supports negative indices, returns `none`
on an out-of-range index (an `IndexError` in Python). -/
def pyIndex {α : Type} (s : List α) (i : ℤ) : Option α :=
  let j := if i < 0 then i + s.length else i
  if h : 0 ≤ j ∧ j.toNat < s.length then some (s.get ⟨j.toNat, h.2⟩) else none

/-- The last `n` elements of a list (all of it when `n ≥ length`). -/
def takeLast {α : Type} (n : ℕ) (l : List α) : List α :=
  l.drop (l.length - n)

/-- Number of nonzero entries of a list, `np.sum(arr != 0)` in the source. -/
def countNonzero (l : List ℚ) : ℕ :=
  l.countP (fun r => decide (r ≠ 0))

/-! ## Data model -/

/-- The fields of the info dictionary used by the stepping layer and the
episode policies: the tick counter, the aliveness flag and the player's
world y coordinate. -/
structure Info where
  tick : ℤ
  is_alive : Bool
  y : ℚ
  deriving DecidableEq, Repr

/-- `StepVal`: the per-step snapshot (noita_env.py lines 29-37). The frame
buffer contents are opaque to the stepping layer and modelled as a list of
bytes. -/
structure StepVal where
  pixels : List ℕ
  reward : ℚ
  terminated : Bool
  truncated : Bool
  info : Info
  ep_step : ℕ
  env_step : ℕ
  deriving DecidableEq, Repr

/-- `NoitaState` (noita_env.py lines 40-43). -/
inductive NoitaState where
  | UNKNOWN
  | RUNNING
  | GAME_OVER
  deriving DecidableEq, Repr

/-- `keyboard.MouseButton` values used by the input space. -/
inductive MouseButton where
  | LEFT
  | RIGHT
  deriving DecidableEq, Repr

/-- An entry of one discrete input dimension: a key name or a mouse button. -/
inductive InputElem where
  | key (k : String)
  | mouse (b : MouseButton)
  deriving DecidableEq, Repr

/-- The run-config entries read by `step` and by reset, as rationals
(noita_env.py `_default_run_config`). -/
structure RunConfig where
  x_res : ℚ
  y_res : ℚ
  run_rate : ℚ
  pause_rate : ℚ
  step_duration : ℚ
  scale_mouse_coords : ℚ
  deriving DecidableEq, Repr

/-- `NoitaEnv._default_run_config()`: x_res 640, y_res 360, run_rate 4,
pause_rate 0.02, step_duration 0.166, scale_mouse_coords 3. -/
def default_run_config : RunConfig where
  x_res := 640
  y_res := 360
  run_rate := 4
  pause_rate := 2 / 100
  step_duration := 166 / 1000
  scale_mouse_coords := 3

/-! ## Discrete action decoding (`NoitaEnv._input_space`, `step` lines 370-378) -/

/-- `NoitaEnv._input_space()`: each discrete dimension is a tuple whose
entries are `None`, a key name, or a mouse button. -/
def input_space : List (List (Option InputElem)) :=
  [ [none, some (.key "W"), some (.key "S")],
    [none, some (.key "A"), some (.key "D")],
    [none, some (.key "F")],
    [none, some (.key "E")],
    [none, some (.key "1"), some (.key "3"), some (.key "4")],
    [none, some (.key "5"), some (.key "6"), some (.key "7"), some (.key "8")],
    [none, some (.mouse .LEFT), some (.mouse .RIGHT)] ]

/-- The loop `for i, s in zip(discrete_action, self.input_space)` that
collects held keys and held mouse buttons; `none` (out-of-range index)
models a raised `IndexError`. -/
def heldSetsAux : List (ℤ × List (Option InputElem)) →
    Option (Finset String × Finset MouseButton)
  | [] => some (∅, ∅)
  | (i, s) :: rest => do
    let e ← pyIndex s i
    let (ks, bs) ← heldSetsAux rest
    match e with
    | none => pure (ks, bs)
    | some (.key k) => pure (insert k ks, bs)
    | some (.mouse b) => pure (ks, insert b bs)

/-- Held keys and held mouse buttons computed by `step` from the discrete
action vector (noita_env.py lines 372-378). -/
def heldSets (discrete_action : List ℤ) :
    Option (Finset String × Finset MouseButton) :=
  heldSetsAux (discrete_action.zip input_space)

/-! ## Continuous action decoding (`step` lines 383-392) -/

/-- The mouse position computed by `step` from the continuous action:
rescale by `scale_mouse_coords`, remap from [-1, 1] to [0, 1], then
multiply by the configured resolution. -/
def step_mouse_pos (cfg : RunConfig) (continuous_action : List ℚ) :
    Option (ℚ × ℚ) :=
  let scaled := continuous_action.map (fun c => c * cfg.scale_mouse_coords)
  let remapped := scaled.map (fun c => (c + 1) / 2)
  do
    let cx ← remapped.get? 0
    let cy ← remapped.get? 1
    pure (cx * cfg.x_res, cy * cfg.y_res)

/-! ## Action dispatch (`step` lines 364-370) -/

/-- The Python action argument: either the `(discrete, continuous)` pair or
a flat sequence (the SB3 shape). -/
inductive PyAction where
  | pair (d : List ℚ) (c : List ℚ)
  | flat (l : List ℚ)
  deriving DecidableEq, Repr

/-- `if len(action) == 9: action = action[0:7], action[7:9]` followed by the
tuple unpacking; a flat sequence of any other length fails the unpacking. -/
def decompose : PyAction → Option (List ℚ × List ℚ)
  | .pair d c => some (d, c)
  | .flat l => if l.length = 9 then some (l.take 7, l.drop 7) else none

/-- The device inputs `step` derives from an action: held keys, held mouse
buttons and the mouse position. `discrete_action = [int(x) for x in
discrete_action]` is the `pyInt` map. -/
def action_inputs (cfg : RunConfig) (a : PyAction) :
    Option ((Finset String × Finset MouseButton) × (ℚ × ℚ)) := do
  let (d, c) ← decompose a
  let held ← heldSets (d.map pyInt)
  let mp ← step_mouse_pos cfg c
  pure (held, mp)

/-! ## TerminateOnOverworld (noita_env.py lines 46-61) -/

/-- `is_overworld`: `int(info["y"]) < -80`. -/
def is_overworld (info : Info) : Bool :=
  if pyInt info.y < -80 then true else false

/-- The value-level effect of `TerminateOnOverworld.__call__` on the step
snapshot. -/
def terminateOnOverworld (step : StepVal) : StepVal :=
  if is_overworld step.info then { step with terminated := true } else step

/-- A Python-heap model for the policy call: the snapshot lives at an
address, the call mutates the object in place (`step.terminated = True`)
and returns the reference it was given (`return step`). -/
def policyCall (f : StepVal → StepVal) (addr : ℕ) (heap : ℕ → StepVal) :
    ℕ × (ℕ → StepVal) :=
  (addr, Function.update heap addr (f (heap addr)))

/-! ## TerminateOnSparseReward (noita_env.py lines 64-103)

`LinearInterpolator` and `GrowingCircularFIFOArray` live in
`bounce_rl.utilities.util`, which is not part of the sources here; they are
modelled from the spec. -/

/-- Modelled from the spec: `LinearInterpolator` (from `bounce_rl.utilities.util`,
not under src/). The window size is "linearly interpolated between two
(step, size) anchor points and clamped at the upper bound (no extrapolation
beyond the configured range)". -/
structure LinearInterpolator where
  x_0 : ℚ
  x_1 : ℚ
  y_0 : ℚ
  y_1 : ℚ
  extrapolate : Bool
  deriving DecidableEq, Repr

/-- Modelled from the spec: `LinearInterpolator.get_value`. With
`extrapolate = false` the input is clamped to `[x_0, x_1]`. -/
def LinearInterpolator.get_value (li : LinearInterpolator) (x : ℚ) : ℚ :=
  let xc := if li.extrapolate then x else max li.x_0 (min x li.x_1)
  li.y_0 + (xc - li.x_0) * (li.y_1 - li.y_0) / (li.x_1 - li.x_0)

/-- Modelled from the spec: `GrowingCircularFIFOArray` (from
`bounce_rl.utilities.util`, not under src/): "a bounded time-windowed
history of recent rewards". `data` holds the window, most recent entry
last. -/
structure GrowingCircularFIFOArray where
  max_size : ℕ
  data : List ℚ
  deriving DecidableEq, Repr

/-- Modelled from the spec: `push(value, size)` appends the value and keeps
the most recent `size` entries, capped at `max_size`. -/
def GrowingCircularFIFOArray.push (a : GrowingCircularFIFOArray) (v : ℚ)
    (size : ℕ) : GrowingCircularFIFOArray :=
  { a with data := takeLast (min size a.max_size) (a.data ++ [v]) }

/-- Modelled from the spec: `get_array()` returns the current window. -/
def GrowingCircularFIFOArray.get_array (a : GrowingCircularFIFOArray) :
    List ℚ :=
  a.data

/-- The state of a `TerminateOnSparseReward` policy instance
(noita_env.py lines 67-84): the fixed penalty 10, the window-size
interpolator, the size cap, and the reward history. -/
structure SparseRewardPolicy where
  termination_penalty : ℚ
  max_size : ℕ
  history_len : LinearInterpolator
  reward_history : GrowingCircularFIFOArray
  deriving DecidableEq, Repr

/-- The `__init__` defaults: penalty 10, `max_size = 5*60*4`,
`history_len = LinearInterpolator(0, 1000000, 1.5*60*4, 5*60*4, False)`. -/
def sparseRewardDefaults : SparseRewardPolicy where
  termination_penalty := 10
  max_size := 1200
  history_len := ⟨0, 1000000, 360, 1200, false⟩
  reward_history := ⟨1200, []⟩

/-- `TerminateOnSparseReward.reset` (lines 100-103): fresh history, then
push one synthetic nonzero entry with window size 1. -/
def sparseReset (p : SparseRewardPolicy) : SparseRewardPolicy :=
  { p with reward_history :=
      GrowingCircularFIFOArray.push ⟨p.max_size, []⟩ 1 1 }

/-- `TerminateOnSparseReward.__call__` (lines 86-98): push the step's
reward with window size `int(history_len.get_value(step.ep_step))`; if the
window then holds no nonzero entry, subtract the penalty from the reward
and force termination. Returns the new policy state and the step value. -/
def sparseCall (p : SparseRewardPolicy) (step : StepVal) :
    SparseRewardPolicy × StepVal :=
  let size := (pyInt (p.history_len.get_value (step.ep_step : ℚ))).toNat
  let hist := p.reward_history.push step.reward size
  let p' := { p with reward_history := hist }
  if countNonzero hist.get_array = 0 then
    (p', { step with reward := step.reward - p.termination_penalty,
                     terminated := true })
  else (p', step)

/-- A raw step snapshot carrying reward `r` at episode step `k`, as the
environment hands it to the policy chain while the run is alive. -/
def rawStep (r : ℚ) (k : ℕ) : StepVal where
  pixels := []
  reward := r
  terminated := false
  truncated := false
  info := ⟨(k : ℤ), true, 0⟩
  ep_step := k
  env_step := k

/-- Feed a reward stream through `TerminateOnSparseReward`, one policy call
per step (episode steps 1, 2, ...), collecting the returned step values. -/
def sparseRunAux (p : SparseRewardPolicy) (k : ℕ) : List ℚ → List StepVal
  | [] => []
  | r :: rest =>
    let out := sparseCall p (rawStep r k)
    out.2 :: sparseRunAux out.1 (k + 1) rest

/-- Reset the policy, then feed it the reward stream. -/
def sparseRun (p : SparseRewardPolicy) (rewards : List ℚ) : List StepVal :=
  sparseRunAux (sparseReset p) 1 rewards

/-- Policy state after `k` steps of the all-zero reward stream. -/
def sparseZeroState (p : SparseRewardPolicy) : ℕ → SparseRewardPolicy
  | 0 => sparseReset p
  | k + 1 => (sparseCall (sparseZeroState p k) (rawStep 0 (k + 1))).1

/-- Step value returned at step `k + 1` of the all-zero reward stream. -/
def sparseZeroOut (p : SparseRewardPolicy) (k : ℕ) : StepVal :=
  (sparseCall (sparseZeroState p k) (rawStep 0 (k + 1))).2

/-- The window size requested at episode step `k`. -/
def winSize (p : SparseRewardPolicy) (k : ℕ) : ℕ :=
  (pyInt (p.history_len.get_value (k : ℚ))).toNat

/-- The effective window size at episode step `k`: the requested size
capped at `max_size`. -/
def effSize (p : SparseRewardPolicy) (k : ℕ) : ℕ :=
  min (winSize p k) p.max_size

/-- Length of the reward history after `k` steps of the all-zero stream. -/
def histL (p : SparseRewardPolicy) : ℕ → ℕ
  | 0 => min 1 p.max_size
  | k + 1 => min (histL p k + 1) (effSize p (k + 1))

/-- Whether the synthetic seed entry is still inside the window after `k`
steps of the all-zero stream. -/
def seedPresent (p : SparseRewardPolicy) : ℕ → Bool
  | 0 => decide (1 ≤ min 1 p.max_size)
  | k + 1 => seedPresent p k && decide (histL p k + 1 ≤ effSize p (k + 1))

/-! ## Step synchronization loop (`NoitaEnv.step`, lines 396-411) -/

/-- An observable action of the synchronization loop: a time-control write
for this instance, a sleep, or an info poll. -/
inductive StepEvent where
  | setSpeed (mult : ℚ) (inst : ℕ)
  | sleep (dur : ℚ)
  | poll
  deriving DecidableEq, Repr

/-- The events of one loop iteration: speed to `run_rate`, sleep
`step_duration / run_rate`, speed to `pause_rate`, poll the info source. -/
def iterEvents (cfg : RunConfig) (inst : ℕ) : List StepEvent :=
  [.setSpeed cfg.run_rate inst, .sleep (cfg.step_duration / cfg.run_rate),
   .setSpeed cfg.pause_rate inst, .poll]

/-- The loop body over the remaining iteration indices: break (returning the
iteration index) as soon as the polled tick differs from `init_tick`; on
the last index without a tick change, return `none` (the code's
`return None` after the warning). `polls i` is the tick field of the info
polled in iteration `i`. -/
def syncLoopGo (init_tick : ℤ) (polls : ℕ → ℤ) : List ℕ → Option ℕ
  | [] => none
  | [i] => if polls i ≠ init_tick then some i else none
  | i :: j :: rest =>
    if polls i ≠ init_tick then some i else syncLoopGo init_tick polls (j :: rest)

/-- `retries = 20; for i in range(retries): ...` -/
def syncLoop (init_tick : ℤ) (polls : ℕ → ℤ) : Option ℕ :=
  syncLoopGo init_tick polls (List.range 20)

/-- The event trace of the loop: each executed iteration contributes its
four events, and the loop stops after the iteration whose poll shows a
changed tick (or after the last index). -/
def syncTraceGo (cfg : RunConfig) (inst : ℕ) (init_tick : ℤ)
    (polls : ℕ → ℤ) : List ℕ → List StepEvent
  | [] => []
  | i :: rest =>
    iterEvents cfg inst ++
      (if polls i ≠ init_tick then [] else syncTraceGo cfg inst init_tick polls rest)

/-- The full event trace of the synchronization loop. -/
def syncTrace (cfg : RunConfig) (inst : ℕ) (init_tick : ℤ)
    (polls : ℕ → ℤ) : List StepEvent :=
  syncTraceGo cfg inst init_tick polls (List.range 20)

/-! ## Reset and its watchdog (noita_env.py lines 263-320) -/

/-- An observable action of one reset attempt. -/
inductive ResetEvent where
  | pollReady (t : ℕ)
  | tick
  | sleep (secs : ℕ)
  | cleanup
  | markRunning
  deriving DecidableEq, Repr

/-- `_wait_for_harness_init` (lines 311-320), with time in whole seconds:
check `handle.ready`; while not ready, call `tick()`, sleep 1 s, and fail
once more than 45 s have elapsed. `ready t` says whether the handle is
ready at elapsed second `t`. The fuel argument (46 suffices) only drives
the recursion; the watchdog exit fires first. -/
def waitInitGo (ready : ℕ → Bool) : ℕ → ℕ → Bool
  | 0, _ => false
  | fuel + 1, t =>
    if ready t then true
    else if t + 1 > 45 then false
    else waitInitGo ready fuel (t + 1)

/-- `_wait_for_harness_init` as a Boolean result: `true` iff the handle
became ready before the 45 s watchdog expired. -/
def wait_for_harness_init (ready : ℕ → Bool) : Bool :=
  waitInitGo ready 46 0

/-- Event trace of `_wait_for_harness_init`. -/
def waitInitTraceGo (ready : ℕ → Bool) : ℕ → ℕ → List ResetEvent
  | 0, _ => []
  | fuel + 1, t =>
    if ready t then [.pollReady t]
    else .pollReady t :: .tick :: .sleep 1 ::
      (if t + 1 > 45 then [] else waitInitTraceGo ready fuel (t + 1))

/-- The poll/tick/sleep trace of one watchdog wait. -/
def waitInitTrace (ready : ℕ → Bool) : List ResetEvent :=
  waitInitTraceGo ready 46 0

/-- `_try_reset_env` (lines 273-309), reduced to the harness wait: on
watchdog timeout it cleans the handle up and returns `False`; on success
the init sequence runs and the state becomes RUNNING. Returns the success
flag and the attempt's trace. -/
def try_reset_env (ready : ℕ → Bool) : Bool × List ResetEvent :=
  if wait_for_harness_init ready then
    (true, waitInitTrace ready ++ [.markRunning])
  else
    (false, waitInitTrace ready ++ [.cleanup])

/-- `_reset_env` (lines 263-271) over the remaining attempt indices:
return the index of the first successful attempt, or the fatal error after
the last attempt fails. `ready a` is the readiness signal of attempt `a`. -/
def resetGo (ready : ℕ → ℕ → Bool) : List ℕ → Except String ℕ
  | [] => .error "Failed to reset NoitaEnv."
  | a :: rest =>
    if (try_reset_env (ready a)).1 then .ok a else resetGo ready rest

/-- `_reset_env`: up to 3 attempts (`for i in range(3)`), then the fatal
`RuntimeError` (the spec's `ResetExhausted`). -/
def reset_env (ready : ℕ → ℕ → Bool) : Except String ℕ :=
  resetGo ready (List.range 3)

/-! ## Session counters and state (noita_env.py lines 156-158, 273-309,
346-349, 361-362) -/

/-- The per-session counters and state-machine state. -/
structure Session where
  ep_step : ℕ
  ep_num : ℕ
  env_step : ℕ
  state : NoitaState
  deriving DecidableEq, Repr

/-- The operations that touch the session counters: a `step` call (which
increments both counters first thing, lines 361-362) and a reset attempt
(`_try_reset_env` zeroes `ep_step`, bumps `ep_num`, and reaches
`state = RUNNING` through `_env_init` only on success). -/
inductive SessionOp where
  | stepOp
  | tryResetOp (success : Bool)
  deriving DecidableEq, Repr

/-- Effect of one operation on the session. -/
def applyOp : SessionOp → Session → Session
  | .stepOp, s =>
    { s with ep_step := s.ep_step + 1, env_step := s.env_step + 1 }
  | .tryResetOp success, s =>
    { s with ep_step := 0, ep_num := s.ep_num + 1,
             state := if success then .RUNNING else .UNKNOWN }

/-- A session lifetime: a sequence of operations applied in order. -/
def runOps (ops : List SessionOp) (s : Session) : Session :=
  ops.foldl (fun s op => applyOp op s) s

/-! ## Time-control channel (`SetSpeedup`) -/

/-- Little-endian byte serialization of a 32-bit pattern. -/
def bytesLE (bits : ℕ) : List ℕ :=
  [bits % 256, bits / 256 % 256, bits / 65536 % 256, bits / 16777216 % 256]

/-- The IEEE-754 binary32 bit pattern of a rational, when the rational is
zero or exactly representable as a normal binary32 value (which covers
every multiplier the environment writes). `struct.pack("f", x)` produces
exactly these 4 bytes, little-endian. -/
def float32OfRat (q : ℚ) : Option ℕ :=
  if q = 0 then some 0 else
  let s : ℕ := if q < 0 then 1 else 0
  let num := q.num.natAbs
  let den := q.den
  match (List.range 254).find?
      (fun i => den * 2 ^ i ≤ num * 2 ^ 126 && num * 2 ^ 126 < den * 2 ^ (i + 1)) with
  | none => none
  | some i =>
    let base := den * 2 ^ i
    let mantNum := (num * 2 ^ 126 - base) * 2 ^ 23
    if mantNum % base = 0 ∧ mantNum / base < 2 ^ 23 then
      some (s * 2 ^ 31 + (i + 1) * 2 ^ 23 + mantNum / base)
    else none

/-- Modelled from the spec: the per-instance time-control writer
`SetSpeedup(speedup, instance)` of `bounce_rl.core.time_control.time_writer`
(not under src/; `src/src/time_writer.py` shows the single-artifact
`struct.pack("f", speedup)` write, and noita_env.py lines 246, 265 and
399-402 call the two-argument per-instance form). It "serializes the
multiplier as a fixed-width binary float and atomically overwrites a
per-instance addressable artifact", last-write-wins. The artifact store
maps an instance key to the bytes last written for it. -/
def SetSpeedup (speedup : ℚ) (inst : String)
    (store : String → Option (List ℕ)) : String → Option (List ℕ) :=
  fun k => if k = inst then (float32OfRat speedup).map bytesLE else store k

/-! ## Concrete instances used by witnesses and counterexamples -/

/-- The default run config with the mouse-coordinate factor set to 1. -/
def cfg_scale_one : RunConfig :=
  { default_run_config with scale_mouse_coords := 1 }

/-- A snapshot whose info reports world coordinate y = -81. -/
def step81 : StepVal := ⟨[], 0, false, false, ⟨0, true, -81⟩, 1, 1⟩

/-- A snapshot whose info reports world coordinate y = -79. -/
def step79 : StepVal := ⟨[], 0, false, false, ⟨0, true, -79⟩, 1, 1⟩

/-- A one-object heap holding the y = -81 snapshot everywhere. -/
def heap81 : ℕ → StepVal := fun _ => step81

/-- A poll sequence whose tick changes at iteration 3. -/
def pollsW : ℕ → ℤ := fun i => if i < 3 then 5 else 7

/-- A readiness signal: attempt 0 never becomes ready, attempt 1 becomes
ready at second 3. -/
def readyW : ℕ → ℕ → Bool := fun a t => decide (a = 1 ∧ t = 3)

/-- The rational 5/2 in normalized constructor form (so that the kernel
can evaluate with it). -/
def q25 : ℚ := ⟨5, 2, by decide, by decide⟩

/-- A sparse-reward policy instance with a constant window size of 2
(`history_len = LinearInterpolator(0, 1, 2, 2, False)`, `max_size = 10`),
as permitted by the `__init__` parameters. -/
def sparseCexPolicy : SparseRewardPolicy where
  termination_penalty := 10
  max_size := 10
  history_len := ⟨0, 1, 2, 2, false⟩
  reward_history := ⟨10, []⟩

/-! # Theorems -/

/-! ## C5: all-zero discrete actions produce no inputs -/

theorem pyInt_zero : pyInt 0 = 0 := by decide

theorem heldSetsAux_all_zero (d : List ℤ) (l : List (List (Option InputElem)))
    (hd : ∀ x ∈ d, x = 0) (hl : ∀ s ∈ l, s.head? = some none) :
    heldSetsAux (d.zip l) = some (∅, ∅) := by
  induction d generalizing l with
  | nil => simp [heldSetsAux]
  | cons x d ih =>
    cases l with
    | nil => simp [heldSetsAux]
    | cons s l =>
      have hx : x = 0 := hd x (by simp)
      have hs : s.head? = some none := hl s (by simp)
      obtain ⟨t, rfl⟩ : ∃ t, s = none :: t := by
        cases s with
        | nil => simp at hs
        | cons a t =>
          simp at hs
          exact ⟨t, by rw [hs]⟩
      have hp : pyIndex (none :: t) x = some none := by
        subst hx
        simp [pyIndex]
      have hrec : heldSetsAux (List.zipWith Prod.mk d l) = some (∅, ∅) :=
        ih l (fun y hy => hd y (List.mem_cons_of_mem _ hy))
          (fun u hu => hl u (List.mem_cons_of_mem _ hu))
      simp [heldSetsAux, hp, hrec]

/-- Claim C5: for any discrete action vector of all zeros passed to step,
the resulting held-key set and held-mouse-button set applied to the input
channel are both empty (index 0 in every discrete dimension is `None`,
meaning no input for that dimension). -/
theorem zero_discrete_action_inputs_empty (d : List ℚ)
    (h : ∀ x ∈ d, x = 0) :
    heldSets (d.map pyInt) = some (∅, ∅) := by
  apply heldSetsAux_all_zero
  · intro x hx
    simp [List.mem_map] at hx
    obtain ⟨y, hy, rfl⟩ := hx
    rw [h y hy, pyInt_zero]
  · decide

/-- Witness for C5 at the concrete all-zero 7-dimensional action. -/
theorem zero_discrete_action_inputs_empty_witness :
    heldSets (([0, 0, 0, 0, 0, 0, 0] : List ℚ).map pyInt) = some (∅, ∅) :=
  zero_discrete_action_inputs_empty _ (by
    intro x hx
    simp at hx
    exact hx)

/-! ## C7: the overworld termination policy -/

theorem pyInt_neg81 : pyInt (-81 : ℚ) = -81 := by decide

theorem pyInt_neg79 : pyInt (-79 : ℚ) = -79 := by decide

/-- Claim C7: `TerminateOnOverworld` is a pure function of the snapshot
that forces terminated exactly when the derived (integer-truncated) world
coordinate falls below -80, leaving every other field unchanged; y = -81
forces termination and y = -79 leaves the snapshot unchanged. -/
theorem terminateOnOverworld_spec (s : StepVal) :
    terminateOnOverworld s
      = { s with terminated := s.terminated || decide (pyInt s.info.y < -80) }
  ∧ (-80 ≤ pyInt s.info.y → terminateOnOverworld s = s)
  ∧ (s.info.y = -81 → (terminateOnOverworld s).terminated = true)
  ∧ (s.info.y = -79 → terminateOnOverworld s = s) := by
  by_cases h : pyInt s.info.y < -80
  · refine ⟨by simp [terminateOnOverworld, is_overworld, h], ?_, ?_, ?_⟩
    · intro hge
      omega
    · intro _
      simp [terminateOnOverworld, is_overworld, h]
    · intro hy
      rw [hy, pyInt_neg79] at h
      omega
  · refine ⟨?_, ?_, ?_, ?_⟩
    · simp [terminateOnOverworld, is_overworld, h]
    · intro _
      simp [terminateOnOverworld, is_overworld, h]
    · intro hy
      rw [hy, pyInt_neg81] at h
      omega
    · intro _
      simp [terminateOnOverworld, is_overworld, h]

/-- Witness for C7 at the concrete y = -81 and y = -79 snapshots. -/
theorem terminateOnOverworld_spec_witness :
    (terminateOnOverworld step81).terminated = true
    ∧ terminateOnOverworld step79 = step79 :=
  ⟨(terminateOnOverworld_spec step81).2.2.1 rfl,
   (terminateOnOverworld_spec step79).2.2.2 rfl⟩

/-! ## C9: session counters -/

theorem applyOp_env_step_le (op : SessionOp) (s : Session) :
    s.env_step ≤ (applyOp op s).env_step := by
  cases op <;> simp [applyOp]

/-- Claim C9: for every session, the env-step counter is non-decreasing
across every sequence of operations, and every successful reset attempt
sets the episode-step counter to 0 and the session state to RUNNING. -/
theorem session_counters_spec :
    (∀ (ops : List SessionOp) (s : Session),
        s.env_step ≤ (runOps ops s).env_step)
  ∧ (∀ (s : Session),
        (applyOp (.tryResetOp true) s).ep_step = 0
        ∧ (applyOp (.tryResetOp true) s).state = .RUNNING) := by
  constructor
  · intro ops
    induction ops with
    | nil =>
      intro s
      simp [runOps]
    | cons op ops ih =>
      intro s
      have h1 := applyOp_env_step_le op s
      have h2 := ih (applyOp op s)
      simp only [runOps, List.foldl] at h2 ⊢
      omega
  · intro s
    exact ⟨rfl, rfl⟩

/-! ## C10: flat length-9 actions -/

/-- Claim C10: a flat action sequence of length 9 is split into its first 7
elements (discrete) and last 2 (continuous), and produces exactly the same
held keys, held mouse buttons and mouse position as the equivalent
(discrete, continuous) pair. -/
theorem flat_action_equivalent (cfg : RunConfig) (l : List ℚ)
    (h : l.length = 9) :
    action_inputs cfg (.flat l)
      = action_inputs cfg (.pair (l.take 7) (l.drop 7)) := by
  simp [action_inputs, decompose, h]

/-- Witness for C10 at a concrete flat action. -/
theorem flat_action_equivalent_witness :
    action_inputs default_run_config (.flat [1, 0, 0, 0, 0, 0, 0, 1, -1])
      = action_inputs default_run_config
          (.pair [1, 0, 0, 0, 0, 0, 0] [1, -1]) := by
  have h := flat_action_equivalent default_run_config
    [1, 0, 0, 0, 0, 0, 0, 1, -1] (by rfl)
  simpa using h

/-! ## C1: continuous action to device coordinates -/

/-- Counterexample to C1 as stated: with the default configuration
(`scale_mouse_coords = 3`), the continuous action (-1, -1) maps to
(-640, -360), not to (0, 0), and (1, 1) maps to (1280, 720), which is
neither `(x_res, y_res)` nor `(x_res, y_res)` scaled by the factor. -/
theorem mouse_endpoints_counterexample :
    step_mouse_pos default_run_config [-1, -1] = some (-640, -360)
  ∧ step_mouse_pos default_run_config [1, 1] = some (1280, 720)
  ∧ ((-640 : ℚ) ≠ 0 ∧ (-360 : ℚ) ≠ 0)
  ∧ ((1280 : ℚ) ≠ 640 ∧ (1280 : ℚ) ≠ 3 * 640)
  ∧ ((720 : ℚ) ≠ 360 ∧ (720 : ℚ) ≠ 3 * 360) := by
  refine ⟨?_, ?_, by norm_num, by norm_num, by norm_num⟩
  · simp [step_mouse_pos, default_run_config]
    norm_num
  · simp [step_mouse_pos, default_run_config]
    norm_num

/-- Claim C1 amended: `step` rescales each continuous component by the
configured factor, remaps from [-1, 1] to [0, 1], then multiplies by the
configured resolution; hence (-1, -1) maps to
`((1 - f)/2 · x_res, (1 - f)/2 · y_res)` and (1, 1) to
`((1 + f)/2 · x_res, (1 + f)/2 · y_res)`, which equal (0, 0) and
(x_res, y_res) exactly when the configured factor f is 1. -/
theorem mouse_coordinate_mapping (cfg : RunConfig) (a b : ℚ) :
    step_mouse_pos cfg [a, b]
      = some ((a * cfg.scale_mouse_coords + 1) / 2 * cfg.x_res,
              (b * cfg.scale_mouse_coords + 1) / 2 * cfg.y_res)
  ∧ step_mouse_pos cfg [-1, -1]
      = some ((1 - cfg.scale_mouse_coords) / 2 * cfg.x_res,
              (1 - cfg.scale_mouse_coords) / 2 * cfg.y_res)
  ∧ step_mouse_pos cfg [1, 1]
      = some ((1 + cfg.scale_mouse_coords) / 2 * cfg.x_res,
              (1 + cfg.scale_mouse_coords) / 2 * cfg.y_res)
  ∧ (cfg.scale_mouse_coords = 1 →
      step_mouse_pos cfg [-1, -1] = some (0, 0)
      ∧ step_mouse_pos cfg [1, 1] = some (cfg.x_res, cfg.y_res)) := by
  have hgen : ∀ u v : ℚ, step_mouse_pos cfg [u, v]
      = some ((u * cfg.scale_mouse_coords + 1) / 2 * cfg.x_res,
              (v * cfg.scale_mouse_coords + 1) / 2 * cfg.y_res) := by
    intro u v
    simp [step_mouse_pos]
  refine ⟨hgen a b, ?_, ?_, ?_⟩
  · rw [hgen (-1) (-1)]
    simp only [Option.some.injEq, Prod.mk.injEq]
    constructor <;> ring
  · rw [hgen 1 1]
    simp only [Option.some.injEq, Prod.mk.injEq]
    constructor <;> ring
  · intro h
    constructor
    · rw [hgen (-1) (-1), h]
      norm_num
    · rw [hgen 1 1, h]
      norm_num

/-- Witness for C1 (amended) at a configuration with factor 1, where the
spec's endpoint property holds. -/
theorem mouse_coordinate_mapping_witness :
    step_mouse_pos cfg_scale_one [-1, -1] = some (0, 0)
    ∧ step_mouse_pos cfg_scale_one [1, 1]
        = some (cfg_scale_one.x_res, cfg_scale_one.y_res) :=
  (mouse_coordinate_mapping cfg_scale_one 0 0).2.2.2 rfl

/-! ## C6: policies and snapshot aliasing -/

/-- Counterexample to C6 as stated: calling `TerminateOnOverworld` on a
snapshot with y = -81 returns the very reference it was given (address 0)
and the object at that address — the input snapshot — now has
`terminated = true` although it was `false` before the call: the input is
aliased and mutated. -/
theorem policy_aliases_input_counterexample :
    (policyCall terminateOnOverworld 0 heap81).1 = 0
  ∧ ((policyCall terminateOnOverworld 0 heap81).2 0).terminated = true
  ∧ (heap81 0).terminated = false := by
  refine ⟨rfl, ?_, rfl⟩
  simp [policyCall, Function.update, heap81]
  decide

/-- Claim C6 amended: each episode policy mutates the step snapshot in
place and returns the same snapshot object: the returned reference is the
input's address, the object at that address holds the policy's output
value, and no other object changes. -/
theorem policy_mutates_in_place (f : StepVal → StepVal) (addr : ℕ)
    (heap : ℕ → StepVal) :
    (policyCall f addr heap).1 = addr
  ∧ (policyCall f addr heap).2 addr = f (heap addr)
  ∧ ∀ a, a ≠ addr → (policyCall f addr heap).2 a = heap a := by
  refine ⟨rfl, ?_, ?_⟩
  · simp [policyCall]
  · intro a ha
    simp [policyCall, Function.update, ha]

/-- Witness for C6 (amended) at the concrete overworld call. -/
theorem policy_mutates_in_place_witness :
    (policyCall terminateOnOverworld 0 heap81).2 1 = heap81 1
    ∧ (policyCall terminateOnOverworld 0 heap81).1 = 0 :=
  ⟨(policy_mutates_in_place terminateOnOverworld 0 heap81).2.2 1 (by decide),
   (policy_mutates_in_place terminateOnOverworld 0 heap81).1⟩

/-! ## C3: the step synchronization loop -/

theorem syncLoopGo_all_eq (t : ℤ) (polls : ℕ → ℤ) :
    ∀ l : List ℕ, (∀ i ∈ l, polls i = t) → syncLoopGo t polls l = none := by
  intro l
  induction l with
  | nil => intro _; rfl
  | cons i rest ih =>
    intro h
    have hi : polls i = t := h i (by simp)
    have hrest := ih (fun u hu => h u (by simp [hu]))
    cases rest with
    | nil => simp [syncLoopGo, hi]
    | cons j rest' =>
      rw [syncLoopGo, if_neg (by simp [hi])]
      exact hrest

theorem syncTraceGo_all_eq (cfg : RunConfig) (inst : ℕ) (t : ℤ)
    (polls : ℕ → ℤ) :
    ∀ l : List ℕ, (∀ i ∈ l, polls i = t) →
      syncTraceGo cfg inst t polls l
        = List.flatten (List.replicate l.length (iterEvents cfg inst)) := by
  intro l
  induction l with
  | nil => intro _; rfl
  | cons i rest ih =>
    intro h
    have hi : polls i = t := h i (by simp)
    have hrest := ih (fun u hu => h u (by simp [hu]))
    simp [syncTraceGo, hi, hrest, List.replicate_succ]

theorem syncLoopGo_break (t : ℤ) (polls : ℕ → ℤ) :
    ∀ (l1 : List ℕ) (j : ℕ) (l2 : List ℕ),
      (∀ i ∈ l1, polls i = t) → polls j ≠ t →
      syncLoopGo t polls (l1 ++ j :: l2) = some j := by
  intro l1
  induction l1 with
  | nil =>
    intro j l2 _ hj
    cases l2 with
    | nil => simp [syncLoopGo, hj]
    | cons b l2' => simp [syncLoopGo, hj]
  | cons i l1' ih =>
    intro j l2 h hj
    have hi : polls i = t := h i (by simp)
    have hrest := ih j l2 (fun u hu => h u (by simp [hu])) hj
    cases l1' with
    | nil =>
      simp only [List.nil_append] at hrest
      simp only [List.cons_append, List.nil_append]
      rw [syncLoopGo, if_neg (by simp [hi])]
      exact hrest
    | cons a l1'' =>
      simp only [List.cons_append] at hrest ⊢
      rw [syncLoopGo, if_neg (by simp [hi])]
      exact hrest

theorem syncTraceGo_break (cfg : RunConfig) (inst : ℕ) (t : ℤ)
    (polls : ℕ → ℤ) :
    ∀ (l1 : List ℕ) (j : ℕ) (l2 : List ℕ),
      (∀ i ∈ l1, polls i = t) → polls j ≠ t →
      syncTraceGo cfg inst t polls (l1 ++ j :: l2)
        = List.flatten (List.replicate (l1.length + 1) (iterEvents cfg inst)) := by
  intro l1
  induction l1 with
  | nil =>
    intro j l2 _ hj
    simp [syncTraceGo, hj]
  | cons i l1' ih =>
    intro j l2 h hj
    have hi : polls i = t := h i (by simp)
    have hrest := ih j l2 (fun u hu => h u (by simp [hu])) hj
    simp [syncTraceGo, hi, hrest, List.replicate_succ]

theorem range_twenty_split (j : ℕ) (hj : j < 20) :
    List.range 20 = List.range' 0 j ++ j :: List.range' (j + 1) (19 - j) := by
  have h1 : (20 - j) + j = 20 := by omega
  have h2 : 20 - j = (19 - j) + 1 := by omega
  rw [List.range_eq_range', ← h1, ← List.range'_append_1 0 j (20 - j), h2,
    List.range'_succ]
  simp

/-- Claim C3: after applying inputs, the controller loops at most 20 times;
each iteration sets the speed to `run_rate`, sleeps
`step_duration / run_rate`, sets the speed to `pause_rate` and polls the
info source (the `iterEvents` trace); it exits as soon as the polled tick
counter differs from the pre-loop tick, and if the tick never changes in
all 20 iterations it returns the unavailable sentinel `none` with no
internal retry (the trace is exactly the 20 iterations). -/
theorem step_sync_loop_spec (cfg : RunConfig) (inst : ℕ) (t : ℤ)
    (polls : ℕ → ℤ) :
    ((∀ i, i < 20 → polls i = t) →
      syncLoop t polls = none
      ∧ syncTrace cfg inst t polls
          = List.flatten (List.replicate 20 (iterEvents cfg inst)))
  ∧ (∀ j, j < 20 → polls j ≠ t → (∀ i, i < j → polls i = t) →
      syncLoop t polls = some j
      ∧ syncTrace cfg inst t polls
          = List.flatten (List.replicate (j + 1) (iterEvents cfg inst))) := by
  constructor
  · intro h
    have hm : ∀ i ∈ List.range 20, polls i = t := by
      intro i hi
      exact h i (List.mem_range.mp hi)
    constructor
    · exact syncLoopGo_all_eq t polls _ hm
    · have := syncTraceGo_all_eq cfg inst t polls _ hm
      simpa using this
  · intro j hj hne hpre
    have hsplit := range_twenty_split j hj
    have hm : ∀ i ∈ List.range' 0 j, polls i = t := by
      intro i hi
      rw [← List.range_eq_range'] at hi
      exact hpre i (List.mem_range.mp hi)
    constructor
    · rw [syncLoop, hsplit]
      exact syncLoopGo_break t polls (List.range' 0 j) j
        (List.range' (j + 1) (19 - j)) hm hne
    · rw [syncTrace, hsplit]
      have := syncTraceGo_break cfg inst t polls (List.range' 0 j) j
        (List.range' (j + 1) (19 - j)) hm hne
      simpa using this

/-- Witness for C3: a poll stream whose tick first changes in iteration 3
breaks the loop there, with exactly 4 iterations of events. -/
theorem step_sync_loop_spec_witness :
    syncLoop 5 pollsW = some 3
    ∧ syncTrace default_run_config 0 5 pollsW
        = List.flatten (List.replicate 4 (iterEvents default_run_config 0)) :=
  (step_sync_loop_spec default_run_config 0 5 pollsW).2 3 (by omega)
    (by decide) (by decide)

/-! ## C4: reset retries and the init watchdog -/

theorem waitInitGo_true_iff (ready : ℕ → Bool) :
    ∀ (fuel t : ℕ), t + fuel = 46 →
      (waitInitGo ready fuel t = true
        ↔ ∃ u, t ≤ u ∧ u ≤ 45 ∧ ready u = true) := by
  intro fuel
  induction fuel with
  | zero =>
    intro t ht
    constructor
    · intro h
      simp [waitInitGo] at h
    · rintro ⟨u, h1, h2, _⟩
      omega
  | succ m ih =>
    intro t ht
    by_cases hr : ready t
    · constructor
      · intro _
        exact ⟨t, le_rfl, by omega, hr⟩
      · intro _
        simp [waitInitGo, hr]
    · by_cases hlate : t + 1 > 45
      · have hval : waitInitGo ready (m + 1) t = false := by
          simp [waitInitGo, hr, hlate]
        rw [hval]
        constructor
        · intro h
          exact absurd h (by simp)
        · rintro ⟨u, h1, h2, hu⟩
          have : u = t := by omega
          rw [this] at hu
          rw [hu] at hr
          exact absurd rfl hr
      · have hval : waitInitGo ready (m + 1) t = waitInitGo ready m (t + 1) := by
          simp [waitInitGo, hr, hlate]
        rw [hval, ih (t + 1) (by omega)]
        constructor
        · rintro ⟨u, h1, h2, hu⟩
          exact ⟨u, by omega, h2, hu⟩
        · rintro ⟨u, h1, h2, hu⟩
          rcases Nat.eq_or_lt_of_le h1 with rfl | hlt
          · rw [hu] at hr
            exact absurd rfl hr
          · exact ⟨u, by omega, h2, hu⟩

theorem waitInitTraceGo_timeout (ready : ℕ → Bool) :
    ∀ (fuel t : ℕ), t + fuel = 46 →
      (∀ u, t ≤ u → u ≤ 45 → ready u = false) →
      waitInitTraceGo ready fuel t
        = List.flatten ((List.range' t fuel).map
            (fun u => [.pollReady u, .tick, .sleep 1])) := by
  intro fuel
  induction fuel with
  | zero =>
    intro t ht _
    rfl
  | succ m ih =>
    intro t ht h
    have hr : ready t = false := h t le_rfl (by omega)
    by_cases hlate : t + 1 > 45
    · have hm0 : m = 0 := by omega
      have ht45 : t = 45 := by omega
      subst hm0 ht45
      simp [waitInitTraceGo, hr]
    · have := ih (t + 1) (by omega) (fun u hu1 hu2 => h u (by omega) hu2)
      simp only [waitInitTraceGo, hr, Bool.false_eq_true, if_false, hlate,
        List.range'_succ, List.map_cons, List.flatten]
      rw [this]
      rfl

theorem wait_init_iff (ready : ℕ → Bool) :
    wait_for_harness_init ready = true ↔ ∃ u, u ≤ 45 ∧ ready u = true := by
  rw [wait_for_harness_init, waitInitGo_true_iff ready 46 0 rfl]
  constructor
  · rintro ⟨u, _, h2, hu⟩
    exact ⟨u, h2, hu⟩
  · rintro ⟨u, h2, hu⟩
    exact ⟨u, Nat.zero_le u, h2, hu⟩

theorem resetGo_all_fail (ready : ℕ → ℕ → Bool) :
    ∀ l : List ℕ, (∀ a ∈ l, (try_reset_env (ready a)).1 = false) →
      resetGo ready l = .error "Failed to reset NoitaEnv." := by
  intro l
  induction l with
  | nil => intro _; rfl
  | cons a rest ih =>
    intro h
    have ha : (try_reset_env (ready a)).1 = false := h a (by simp)
    have hrest := ih (fun b hb => h b (by simp [hb]))
    simp [resetGo, ha, hrest]

theorem resetGo_first_success (ready : ℕ → ℕ → Bool) :
    ∀ (l1 : List ℕ) (a : ℕ) (l2 : List ℕ),
      (∀ b ∈ l1, (try_reset_env (ready b)).1 = false) →
      (try_reset_env (ready a)).1 = true →
      resetGo ready (l1 ++ a :: l2) = .ok a := by
  intro l1
  induction l1 with
  | nil =>
    intro a l2 _ ha
    simp [resetGo, ha]
  | cons b l1' ih =>
    intro a l2 h ha
    have hb : (try_reset_env (ready b)).1 = false := h b (by simp)
    have hrest := ih a l2 (fun u hu => h u (by simp [hu])) ha
    simp [resetGo, hb, hrest]

theorem try_reset_fst (ready : ℕ → Bool) :
    (try_reset_env ready).1 = wait_for_harness_init ready := by
  rw [try_reset_env]
  by_cases h : wait_for_harness_init ready <;> simp [h]

theorem range_three_split (a : ℕ) (ha : a < 3) :
    List.range 3 = List.range' 0 a ++ a :: List.range' (a + 1) (2 - a) := by
  have h1 : (3 - a) + a = 3 := by omega
  have h2 : 3 - a = (2 - a) + 1 := by omega
  rw [List.range_eq_range', ← h1, ← List.range'_append_1 0 a (3 - a), h2,
    List.range'_succ]
  simp

/-- Claim C4: each reset attempt polls `handle.ready` once per second,
calling `tick()` at each failed poll, for up to 45 seconds; an attempt
succeeds exactly when the handle becomes ready within the watchdog window;
on watchdog expiry the attempt tears the process handle down (`cleanup`)
and reports failure by returning `false` rather than raising; reset is
retried up to 3 times, returns on the first successful attempt, and after
3 failed attempts fails fatally with the `RuntimeError` the spec names
`ResetExhausted`. -/
theorem reset_retry_watchdog_spec (ready : ℕ → ℕ → Bool) :
    (∀ a, ((try_reset_env (ready a)).1 = true
        ↔ ∃ u, u ≤ 45 ∧ ready a u = true))
  ∧ (∀ a, (∀ t, t ≤ 45 → ready a t = false) →
      try_reset_env (ready a)
        = (false,
           List.flatten ((List.range' 0 46).map
             (fun u => [.pollReady u, .tick, .sleep 1])) ++ [.cleanup]))
  ∧ ((∀ a, a < 3 → ∀ t, t ≤ 45 → ready a t = false) →
      reset_env ready = .error "Failed to reset NoitaEnv.")
  ∧ (∀ a, a < 3 → (∃ t, t ≤ 45 ∧ ready a t = true) →
      (∀ b, b < a → ∀ t, t ≤ 45 → ready b t = false) →
      reset_env ready = .ok a) := by
  have hfail : ∀ a, (∀ t, t ≤ 45 → ready a t = false) →
      wait_for_harness_init (ready a) = false := by
    intro a h
    cases hw : wait_for_harness_init (ready a)
    · rfl
    · exfalso
      obtain ⟨u, hu1, hu2⟩ := (wait_init_iff (ready a)).mp hw
      rw [h u hu1] at hu2
      exact absurd hu2 (by simp)
  refine ⟨?_, ?_, ?_, ?_⟩
  · intro a
    rw [try_reset_fst, wait_init_iff]
  · intro a h
    have hw := hfail a h
    rw [try_reset_env, hw]
    simp only [Bool.false_eq_true, if_false]
    rw [waitInitTrace, waitInitTraceGo_timeout (ready a) 46 0 rfl
      (fun u _ hu2 => h u hu2)]
  · intro h
    apply resetGo_all_fail
    intro a ha
    rw [try_reset_fst]
    exact hfail a (h a (List.mem_range.mp ha))
  · intro a ha hsucc hprev
    rw [reset_env, range_three_split a ha]
    apply resetGo_first_success
    · intro b hb
      rw [← List.range_eq_range'] at hb
      rw [try_reset_fst]
      exact hfail b (hprev b (List.mem_range.mp hb))
    · rw [try_reset_fst, wait_init_iff]
      obtain ⟨u, hu1, hu2⟩ := hsucc
      exact ⟨u, hu1, hu2⟩

/-- Witness for C4: attempt 0 times out, attempt 1 becomes ready at second
3, so reset succeeds on the second attempt. -/
theorem reset_retry_watchdog_spec_witness :
    reset_env readyW = .ok 1 :=
  (reset_retry_watchdog_spec readyW).2.2.2 1 (by omega)
    ⟨3, by omega, by decide⟩ (by decide)

/-! ## C8: the per-instance time-control artifact -/

theorem rat_five_halves_eq : (5 / 2 : ℚ) = q25 := by
  rw [← Rat.num_div_den q25]
  norm_num [q25]

theorem float32_of_five_halves :
    (float32OfRat q25).map bytesLE = some [0, 0, 32, 64] := by decide

/-- Claim C8: `set_speed(multiplier, instance)` serializes the multiplier
as a 4-byte IEEE-754 binary float and overwrites the per-instance artifact
with last-write-wins semantics: after `set_speed(2.5, instance="3")`,
reading instance 3's artifact yields exactly the 4-byte little-endian
IEEE-754 encoding of 2.5 (`0x40200000`, bytes `[0, 0, 32, 64]`),
independently of any write for another instance, and a write never touches
another instance's artifact. -/
theorem set_speed_artifact_spec (st : String → Option (List ℕ)) (m : ℚ)
    (i : String) (h : i ≠ "3") :
    SetSpeedup (5 / 2) "3" st "3" = some [0, 0, 32, 64]
  ∧ SetSpeedup m i (SetSpeedup (5 / 2) "3" st) "3" = some [0, 0, 32, 64]
  ∧ (∀ bits : ℕ, (bytesLE bits).length = 4)
  ∧ (∀ (q : ℚ) (j k : String) (st' : String → Option (List ℕ)),
      j ≠ k → SetSpeedup q j st' k = st' k) := by
  have h1 : SetSpeedup (5 / 2) "3" st "3" = some [0, 0, 32, 64] := by
    rw [SetSpeedup, if_pos rfl, rat_five_halves_eq, float32_of_five_halves]
  refine ⟨h1, ?_, fun bits => rfl, ?_⟩
  · rw [SetSpeedup, if_neg (fun hc => h hc.symm)]
    exact h1
  · intro q j k st' hjk
    rw [SetSpeedup, if_neg (fun hc => hjk hc.symm)]

/-- Witness for C8 at a concrete empty store, with an interleaved write for
instance "0". -/
theorem set_speed_artifact_spec_witness :
    SetSpeedup (5 / 2) "3" (fun _ => none) "3" = some [0, 0, 32, 64]
    ∧ SetSpeedup 1 "0" (SetSpeedup (5 / 2) "3" (fun _ => none)) "3"
        = some [0, 0, 32, 64] :=
  ⟨(set_speed_artifact_spec (fun _ => none) 1 "0" (by decide)).1,
   (set_speed_artifact_spec (fun _ => none) 1 "0" (by decide)).2.1⟩

/-! ## C2: sparse-reward termination on an all-zero stream -/

theorem takeLast_length {α : Type} (n : ℕ) (l : List α) :
    (takeLast n l).length = min n l.length := by
  simp [takeLast]
  omega

theorem takeLast_of_length_le {α : Type} (n : ℕ) (l : List α)
    (h : l.length ≤ n) : takeLast n l = l := by
  simp [takeLast, Nat.sub_eq_zero_of_le h]

theorem takeLast_replicate (n m : ℕ) :
    takeLast n (List.replicate m (0 : ℚ)) = List.replicate (min n m) 0 := by
  simp [takeLast, List.drop_replicate]
  omega

theorem takeLast_seed (n m : ℕ) (h : n ≤ m) :
    takeLast n (1 :: List.replicate m (0 : ℚ)) = List.replicate n 0 := by
  have hlen : (1 :: List.replicate m (0 : ℚ)).length = m + 1 := by simp
  have hsub : m + 1 - n = (m - n) + 1 := by omega
  rw [takeLast, hlen, hsub, List.drop_succ_cons, List.drop_replicate]
  congr 1
  omega

theorem countNonzero_replicate (n : ℕ) :
    countNonzero (List.replicate n (0 : ℚ)) = 0 := by
  simp [countNonzero, List.countP_replicate]

theorem countNonzero_seed (m : ℕ) :
    countNonzero (1 :: List.replicate m (0 : ℚ)) = 1 := by
  simp [countNonzero, List.countP_cons, List.countP_replicate]

theorem get_value_cex (x : ℚ) :
    LinearInterpolator.get_value ⟨0, 1, 2, 2, false⟩ x = 2 := by
  norm_num [LinearInterpolator.get_value]

theorem sparseCexCall (hist : List ℚ) (r : ℚ) (k : ℕ) :
    sparseCall ⟨10, 10, ⟨0, 1, 2, 2, false⟩, ⟨10, hist⟩⟩ (rawStep r k)
      = (⟨10, 10, ⟨0, 1, 2, 2, false⟩, ⟨10, takeLast 2 (hist ++ [r])⟩⟩,
         if countNonzero (takeLast 2 (hist ++ [r])) = 0
         then { rawStep r k with reward := r - 10, terminated := true }
         else rawStep r k) := by
  have hsize : (pyInt (2 : ℚ)).toNat = 2 := by decide
  have hmin : min 2 10 = 2 := by decide
  simp only [sparseCall, rawStep, get_value_cex, hsize,
    GrowingCircularFIFOArray.push, GrowingCircularFIFOArray.get_array,
    hmin, List.nil_append]
  split <;> rfl

/-- Counterexample to C2 as stated: with a constant window size of 2, the
all-zero stream [0, 0, 0] (longer than the window) makes
`TerminateOnSparseReward` set terminated and subtract the penalty at step 2
(the first step whose window holds no nonzero entry) AND again at step 3:
it fires at every step from the first all-zero window on, not exactly
once. -/
theorem sparse_reward_counterexample :
    ((sparseRun sparseCexPolicy [0, 0, 0]).map
        (fun s => (s.terminated, s.reward)))
      = [(false, 0), (true, -10), (true, -10)]
  ∧ ((sparseRun sparseCexPolicy [0, 0, 0]).countP (fun s => s.terminated)) = 2 := by
  have hreset : sparseReset sparseCexPolicy
      = ⟨10, 10, ⟨0, 1, 2, 2, false⟩, ⟨10, [1]⟩⟩ := by decide
  have hc1 : sparseCall ⟨10, 10, ⟨0, 1, 2, 2, false⟩, ⟨10, [1]⟩⟩ (rawStep 0 1)
      = (⟨10, 10, ⟨0, 1, 2, 2, false⟩, ⟨10, [1, 0]⟩⟩, rawStep 0 1) := by
    rw [sparseCexCall]
    rw [if_neg (by decide)]
    rw [show takeLast 2 (([1] : List ℚ) ++ [0]) = [1, 0] from by decide]
  have hc2 : sparseCall ⟨10, 10, ⟨0, 1, 2, 2, false⟩, ⟨10, [1, 0]⟩⟩ (rawStep 0 2)
      = (⟨10, 10, ⟨0, 1, 2, 2, false⟩, ⟨10, [0, 0]⟩⟩,
         { rawStep 0 2 with reward := 0 - 10, terminated := true }) := by
    rw [sparseCexCall]
    rw [if_pos (by decide)]
    rw [show takeLast 2 (([1, 0] : List ℚ) ++ [0]) = [0, 0] from by decide]
  have hc3 : sparseCall ⟨10, 10, ⟨0, 1, 2, 2, false⟩, ⟨10, [0, 0]⟩⟩ (rawStep 0 3)
      = (⟨10, 10, ⟨0, 1, 2, 2, false⟩, ⟨10, [0, 0]⟩⟩,
         { rawStep 0 3 with reward := 0 - 10, terminated := true }) := by
    rw [sparseCexCall]
    rw [if_pos (by decide)]
    rw [show takeLast 2 (([0, 0] : List ℚ) ++ [0]) = [0, 0] from by decide]
  have hrun : sparseRun sparseCexPolicy [0, 0, 0]
      = [rawStep 0 1,
         { rawStep 0 2 with reward := 0 - 10, terminated := true },
         { rawStep 0 3 with reward := 0 - 10, terminated := true }] := by
    rw [sparseRun, hreset]
    rw [sparseRunAux, hc1]
    rw [sparseRunAux, hc2]
    rw [sparseRunAux, hc3]
    rfl
  rw [hrun]
  constructor
  · simp [rawStep]
  · simp [List.countP_cons, rawStep]

theorem sparseCall_fst (p : SparseRewardPolicy) (step : StepVal) :
    (sparseCall p step).1
      = { p with reward_history :=
            (p.reward_history.push step.reward
              ((pyInt (p.history_len.get_value (step.ep_step : ℚ))).toNat)) } := by
  simp only [sparseCall]
  split <;> rfl

theorem sparseCall_snd (p : SparseRewardPolicy) (step : StepVal) :
    (sparseCall p step).2
      = (if countNonzero (p.reward_history.push step.reward
              ((pyInt (p.history_len.get_value (step.ep_step : ℚ))).toNat)).get_array
            = 0
         then { step with reward := step.reward - p.termination_penalty,
                          terminated := true }
         else step) := by
  simp only [sparseCall]
  split <;> rfl

theorem sparseZeroState_inv (p : SparseRewardPolicy) (hmax : 1 ≤ p.max_size) :
    ∀ k : ℕ,
      (sparseZeroState p k).termination_penalty = p.termination_penalty
      ∧ (sparseZeroState p k).max_size = p.max_size
      ∧ (sparseZeroState p k).history_len = p.history_len
      ∧ (sparseZeroState p k).reward_history.max_size = p.max_size
      ∧ (sparseZeroState p k).reward_history.data
          = (if seedPresent p k then 1 :: List.replicate (histL p k - 1) 0
             else List.replicate (histL p k) 0)
      ∧ (seedPresent p k = true → 1 ≤ histL p k) := by
  intro k
  induction k with
  | zero =>
    have hmin : min 1 p.max_size = 1 := Nat.min_eq_left hmax
    refine ⟨rfl, rfl, rfl, rfl, ?_, ?_⟩
    · show takeLast (min 1 p.max_size) ([] ++ [1]) = _
      rw [List.nil_append, hmin, takeLast_of_length_le 1 [1] (by simp)]
      have hs0 : seedPresent p 0 = true := by
        show decide (1 ≤ min 1 p.max_size) = true
        rw [hmin]
        simp
      have hh0 : histL p 0 = 1 := by
        show min 1 p.max_size = 1
        exact hmin
      rw [hs0, hh0]
      rfl
    · intro _
      show 1 ≤ min 1 p.max_size
      omega
  | succ k ih =>
    obtain ⟨ih1, ih2, ih3, ih4, ih5, ih6⟩ := ih
    have hpush : sparseZeroState p (k + 1)
        = { sparseZeroState p k with
            reward_history :=
              ⟨p.max_size,
               takeLast (effSize p (k + 1))
                 ((sparseZeroState p k).reward_history.data ++ [0])⟩ } := by
      show (sparseCall (sparseZeroState p k) (rawStep 0 (k + 1))).1 = _
      rw [sparseCall_fst]
      show { sparseZeroState p k with
             reward_history :=
               ⟨(sparseZeroState p k).reward_history.max_size,
                takeLast (min ((pyInt ((sparseZeroState p k).history_len.get_value
                    ((rawStep 0 (k + 1)).ep_step : ℚ))).toNat)
                    (sparseZeroState p k).reward_history.max_size)
                  ((sparseZeroState p k).reward_history.data ++ [0])⟩ } = _
      rw [ih3, ih4]
      rfl
    refine ⟨?_, ?_, ?_, ?_, ?_, ?_⟩
    · rw [hpush]
      exact ih1
    · rw [hpush]
      exact ih2
    · rw [hpush]
      exact ih3
    · rw [hpush]
    · rw [hpush]
      show takeLast (effSize p (k + 1))
          ((sparseZeroState p k).reward_history.data ++ [0]) = _
      rw [ih5]
      by_cases hseed : seedPresent p k = true
      · rw [if_pos hseed]
        have hL := ih6 hseed
        have happ : (1 :: List.replicate (histL p k - 1) (0 : ℚ)) ++ [0]
            = 1 :: List.replicate (histL p k) 0 := by
          have hL1 : histL p k - 1 + 1 = histL p k := by omega
          rw [List.cons_append, ← List.replicate_succ', hL1]
        rw [happ]
        by_cases hE : histL p k + 1 ≤ effSize p (k + 1)
        · rw [takeLast_of_length_le _ _ (by simpa using hE)]
          have hs' : seedPresent p (k + 1) = true := by
            show (seedPresent p k
                && decide (histL p k + 1 ≤ effSize p (k + 1))) = true
            simp [hseed, hE]
          have hh' : histL p (k + 1) = histL p k + 1 := by
            show min (histL p k + 1) (effSize p (k + 1)) = histL p k + 1
            omega
          rw [hs', hh']
          simp
        · have hEL : effSize p (k + 1) ≤ histL p k := by omega
          rw [takeLast_seed _ _ hEL]
          have hs' : seedPresent p (k + 1) = false := by
            show (seedPresent p k
                && decide (histL p k + 1 ≤ effSize p (k + 1))) = false
            simp [hE]
          have hh' : histL p (k + 1) = effSize p (k + 1) := by
            show min (histL p k + 1) (effSize p (k + 1)) = effSize p (k + 1)
            omega
          rw [hs', hh']
          simp
      · rw [if_neg hseed]
        have hsf : seedPresent p k = false := by
          cases h : seedPresent p k
          · rfl
          · exact absurd h hseed
        have happ : List.replicate (histL p k) (0 : ℚ) ++ [0]
            = List.replicate (histL p k + 1) 0 :=
          (List.replicate_succ' (histL p k) 0).symm
        rw [happ, takeLast_replicate]
        have hs' : seedPresent p (k + 1) = false := by
          show (seedPresent p k
              && decide (histL p k + 1 ≤ effSize p (k + 1))) = false
          simp [hsf]
        have hh' : histL p (k + 1)
            = min (histL p k + 1) (effSize p (k + 1)) := rfl
        rw [hs', hh']
        simp only [Bool.false_eq_true, if_false]
        congr 1
        omega
    · intro hs
      have hs2 : seedPresent p k = true
          ∧ histL p k + 1 ≤ effSize p (k + 1) := by
        have : (seedPresent p k
            && decide (histL p k + 1 ≤ effSize p (k + 1))) = true := hs
        simpa using this
      show 1 ≤ min (histL p k + 1) (effSize p (k + 1))
      omega

theorem histL_le (p : SparseRewardPolicy) : ∀ k : ℕ, histL p k ≤ k + 1 := by
  intro k
  induction k with
  | zero =>
    show min 1 p.max_size ≤ 1
    omega
  | succ k ih =>
    show min (histL p k + 1) (effSize p (k + 1)) ≤ k + 2
    omega

theorem seedPresent_of_small (p : SparseRewardPolicy) (hmax : 1 ≤ p.max_size) :
    ∀ k : ℕ, (∀ j, 1 ≤ j → j ≤ k → j + 1 ≤ effSize p j) →
      seedPresent p k = true := by
  intro k
  induction k with
  | zero =>
    intro _
    show decide (1 ≤ min 1 p.max_size) = true
    have : min 1 p.max_size = 1 := Nat.min_eq_left hmax
    rw [this]
    simp
  | succ k ih =>
    intro h
    have hk := ih (fun j h1 h2 => h j h1 (by omega))
    have hbound : histL p k + 1 ≤ effSize p (k + 1) := by
      have h1 := histL_le p k
      have h2 := h (k + 1) (by omega) le_rfl
      omega
    show (seedPresent p k
        && decide (histL p k + 1 ≤ effSize p (k + 1))) = true
    simp [hk, hbound]

/-- Claim C2 amended: on an all-zero reward stream, `TerminateOnSparseReward`
(after a reset that seeds one synthetic nonzero entry) sets terminated and
subtracts its fixed penalty at EVERY step at which its reward window
contains no nonzero entry — equivalently, at every step from the moment
the synthetic seed entry has left the window (once the window is all-zero
it stays all-zero), not exactly once; while the effective window sizes are
large enough to retain the seed, no termination occurs, so the seed
prevents termination on the first steps of an episode. -/
theorem sparse_reward_zero_stream_amended (p : SparseRewardPolicy)
    (hmax : 1 ≤ p.max_size) (k : ℕ) :
    ((sparseZeroOut p k).terminated = true
        ↔ countNonzero ((sparseZeroState p (k + 1)).reward_history.get_array)
            = 0)
  ∧ ((sparseZeroOut p k).terminated = !(seedPresent p (k + 1)))
  ∧ ((sparseZeroOut p k).reward
        = if seedPresent p (k + 1) then 0 else -p.termination_penalty)
  ∧ (seedPresent p (k + 1) = false → seedPresent p (k + 2) = false)
  ∧ ((∀ j, 1 ≤ j → j ≤ k + 1 → j + 1 ≤ effSize p j) →
      (sparseZeroOut p k).terminated = false) := by
  obtain ⟨ik1, ik2, ik3, ik4, ik5, ik6⟩ := sparseZeroState_inv p hmax k
  obtain ⟨is1, is2, is3, is4, is5, is6⟩ := sparseZeroState_inv p hmax (k + 1)
  have hrh : (sparseZeroState p (k + 1)).reward_history
      = (sparseZeroState p k).reward_history.push (rawStep 0 (k + 1)).reward
          ((pyInt ((sparseZeroState p k).history_len.get_value
              ((rawStep 0 (k + 1)).ep_step : ℚ))).toNat) := by
    show ((sparseCall (sparseZeroState p k) (rawStep 0 (k + 1))).1).reward_history
        = _
    rw [sparseCall_fst]
  have hout : sparseZeroOut p k
      = (if countNonzero ((sparseZeroState p (k + 1)).reward_history.get_array)
            = 0
         then { rawStep 0 (k + 1) with
                reward := ((rawStep 0 (k + 1)).reward
                  - (sparseZeroState p k).termination_penalty),
                terminated := true }
         else rawStep 0 (k + 1)) := by
    show (sparseCall (sparseZeroState p k) (rawStep 0 (k + 1))).2 = _
    rw [sparseCall_snd, hrh]
  have hcount : countNonzero ((sparseZeroState p (k + 1)).reward_history.get_array)
      = (if seedPresent p (k + 1) then 1 else 0) := by
    show countNonzero ((sparseZeroState p (k + 1)).reward_history.data) = _
    rw [is5]
    by_cases h : seedPresent p (k + 1) = true
    · rw [if_pos h, if_pos h, countNonzero_seed]
    · rw [if_neg h, if_neg h, countNonzero_replicate]
  have h1 : (sparseZeroOut p k).terminated = true
      ↔ countNonzero ((sparseZeroState p (k + 1)).reward_history.get_array)
          = 0 := by
    rw [hout]
    by_cases h : countNonzero ((sparseZeroState p (k + 1)).reward_history.get_array) = 0
    · rw [if_pos h]
      simpa using h
    · rw [if_neg h]
      constructor
      · intro hfalse
        exact absurd hfalse (by simp [rawStep])
      · intro hc
        exact absurd hc h
  have h2 : (sparseZeroOut p k).terminated = !(seedPresent p (k + 1)) := by
    cases hsp : seedPresent p (k + 1)
    · have : countNonzero ((sparseZeroState p (k + 1)).reward_history.get_array)
          = 0 := by
        rw [hcount, hsp]
        rfl
      rw [h1.mpr this]
      rfl
    · have : countNonzero ((sparseZeroState p (k + 1)).reward_history.get_array)
          = 1 := by
        rw [hcount, hsp]
        rfl
      cases ht : (sparseZeroOut p k).terminated
      · rfl
      · rw [h1.mp ht] at this
        exact absurd this (by omega)
  have h3 : (sparseZeroOut p k).reward
      = if seedPresent p (k + 1) then 0 else -p.termination_penalty := by
    rw [hout]
    cases hsp : seedPresent p (k + 1)
    · have hc : countNonzero ((sparseZeroState p (k + 1)).reward_history.get_array)
          = 0 := by
        rw [hcount, hsp]
        rfl
      rw [if_pos hc]
      show (rawStep 0 (k + 1)).reward
          - (sparseZeroState p k).termination_penalty = _
      rw [ik1]
      simp [rawStep]
    · have hc : ¬ countNonzero
          ((sparseZeroState p (k + 1)).reward_history.get_array) = 0 := by
        rw [hcount, hsp]
        simp
      rw [if_neg hc]
      simp [rawStep]
  refine ⟨h1, h2, h3, ?_, ?_⟩
  · intro hf
    show (seedPresent p (k + 1)
        && decide (histL p (k + 1) + 1 ≤ effSize p (k + 2))) = false
    simp [hf]
  · intro hsmall
    rw [h2, seedPresent_of_small p hmax (k + 1) hsmall]
    rfl

/-- Witness for C2 (amended): with the constant-window-2 policy, step 1 of
the all-zero stream does not terminate (the seed is still in the window). -/
theorem sparse_reward_zero_stream_amended_witness :
    (sparseZeroOut sparseCexPolicy 0).terminated = false := by
  have h := sparse_reward_zero_stream_amended sparseCexPolicy (by decide) 0
  apply h.2.2.2.2
  intro j h1 h2
  have hj : j = 1 := by omega
  subst hj
  have he : effSize sparseCexPolicy 1 = 2 := by
    show min ((pyInt (LinearInterpolator.get_value ⟨0, 1, 2, 2, false⟩
        ((1 : ℕ) : ℚ))).toNat) 10 = 2
    rw [get_value_cex]
    decide
  omega

end BounceRL
